import Mathlib

/-!
Shallow embedding of libnfc's `bitutils.c` together with the frame-dispatch
loop of the `nfc-emulate-uid` example, and proofs of the specification's
claims about them.  Bytes are modelled as natural numbers below 256; byte
buffers are lists of naturals; the responder's global state is an explicit
structure threaded through a step function.
-/

namespace Bitutils

/-- The 256-entry odd-parity lookup table `OddParity` from the source. -/
def OddParity : List ℕ :=
[ 1, 0, 0, 1, 0, 1, 1, 0, 0, 1, 1, 0, 1, 0, 0, 1,
  0, 1, 1, 0, 1, 0, 0, 1, 1, 0, 0, 1, 0, 1, 1, 0,
  0, 1, 1, 0, 1, 0, 0, 1, 1, 0, 0, 1, 0, 1, 1, 0,
  1, 0, 0, 1, 0, 1, 1, 0, 0, 1, 1, 0, 1, 0, 0, 1,
  0, 1, 1, 0, 1, 0, 0, 1, 1, 0, 0, 1, 0, 1, 1, 0,
  1, 0, 0, 1, 0, 1, 1, 0, 0, 1, 1, 0, 1, 0, 0, 1,
  1, 0, 0, 1, 0, 1, 1, 0, 0, 1, 1, 0, 1, 0, 0, 1,
  0, 1, 1, 0, 1, 0, 0, 1, 1, 0, 0, 1, 0, 1, 1, 0,
  0, 1, 1, 0, 1, 0, 0, 1, 1, 0, 0, 1, 0, 1, 1, 0,
  1, 0, 0, 1, 0, 1, 1, 0, 0, 1, 1, 0, 1, 0, 0, 1,
  1, 0, 0, 1, 0, 1, 1, 0, 0, 1, 1, 0, 1, 0, 0, 1,
  0, 1, 1, 0, 1, 0, 0, 1, 1, 0, 0, 1, 0, 1, 1, 0,
  1, 0, 0, 1, 0, 1, 1, 0, 0, 1, 1, 0, 1, 0, 0, 1,
  0, 1, 1, 0, 1, 0, 0, 1, 1, 0, 0, 1, 0, 1, 1, 0,
  0, 1, 1, 0, 1, 0, 0, 1, 1, 0, 0, 1, 0, 1, 1, 0,
  1, 0, 0, 1, 0, 1, 1, 0, 0, 1, 1, 0, 1, 0, 0, 1 ]

/-- The 256-entry bit-reversal lookup table `ByteMirror` from the source. -/
def ByteMirror : List ℕ :=
[ 0x00, 0x80, 0x40, 0xc0, 0x20, 0xa0, 0x60, 0xe0, 0x10, 0x90, 0x50, 0xd0, 0x30, 0xb0, 0x70, 0xf0,
  0x08, 0x88, 0x48, 0xc8, 0x28, 0xa8, 0x68, 0xe8, 0x18, 0x98, 0x58, 0xd8, 0x38, 0xb8, 0x78, 0xf8,
  0x04, 0x84, 0x44, 0xc4, 0x24, 0xa4, 0x64, 0xe4, 0x14, 0x94, 0x54, 0xd4, 0x34, 0xb4, 0x74, 0xf4,
  0x0c, 0x8c, 0x4c, 0xcc, 0x2c, 0xac, 0x6c, 0xec, 0x1c, 0x9c, 0x5c, 0xdc, 0x3c, 0xbc, 0x7c, 0xfc,
  0x02, 0x82, 0x42, 0xc2, 0x22, 0xa2, 0x62, 0xe2, 0x12, 0x92, 0x52, 0xd2, 0x32, 0xb2, 0x72, 0xf2,
  0x0a, 0x8a, 0x4a, 0xca, 0x2a, 0xaa, 0x6a, 0xea, 0x1a, 0x9a, 0x5a, 0xda, 0x3a, 0xba, 0x7a, 0xfa,
  0x06, 0x86, 0x46, 0xc6, 0x26, 0xa6, 0x66, 0xe6, 0x16, 0x96, 0x56, 0xd6, 0x36, 0xb6, 0x76, 0xf6,
  0x0e, 0x8e, 0x4e, 0xce, 0x2e, 0xae, 0x6e, 0xee, 0x1e, 0x9e, 0x5e, 0xde, 0x3e, 0xbe, 0x7e, 0xfe,
  0x01, 0x81, 0x41, 0xc1, 0x21, 0xa1, 0x61, 0xe1, 0x11, 0x91, 0x51, 0xd1, 0x31, 0xb1, 0x71, 0xf1,
  0x09, 0x89, 0x49, 0xc9, 0x29, 0xa9, 0x69, 0xe9, 0x19, 0x99, 0x59, 0xd9, 0x39, 0xb9, 0x79, 0xf9,
  0x05, 0x85, 0x45, 0xc5, 0x25, 0xa5, 0x65, 0xe5, 0x15, 0x95, 0x55, 0xd5, 0x35, 0xb5, 0x75, 0xf5,
  0x0d, 0x8d, 0x4d, 0xcd, 0x2d, 0xad, 0x6d, 0xed, 0x1d, 0x9d, 0x5d, 0xdd, 0x3d, 0xbd, 0x7d, 0xfd,
  0x03, 0x83, 0x43, 0xc3, 0x23, 0xa3, 0x63, 0xe3, 0x13, 0x93, 0x53, 0xd3, 0x33, 0xb3, 0x73, 0xf3,
  0x0b, 0x8b, 0x4b, 0xcb, 0x2b, 0xab, 0x6b, 0xeb, 0x1b, 0x9b, 0x5b, 0xdb, 0x3b, 0xbb, 0x7b, 0xfb,
  0x07, 0x87, 0x47, 0xc7, 0x27, 0xa7, 0x67, 0xe7, 0x17, 0x97, 0x57, 0xd7, 0x37, 0xb7, 0x77, 0xf7,
  0x0f, 0x8f, 0x4f, 0xcf, 0x2f, 0xaf, 0x6f, 0xef, 0x1f, 0x9f, 0x5f, 0xdf, 0x3f, 0xbf, 0x7f, 0xff ]

/-- Embedding of `oddparity`: table lookup of the odd-parity bit of a byte. -/
def oddparity (bt : ℕ) : ℕ := OddParity.getD bt 0

/-- Embedding of `mirror`: table lookup of the bit-reversed byte. -/
def mirror (bt : ℕ) : ℕ := ByteMirror.getD bt 0

/-- Embedding of `mirror_bytes`: mirror every byte of the buffer in place. -/
def mirror_bytes (pbts : List ℕ) : List ℕ := pbts.map mirror

/-- Population count of a byte: how many of its eight bits are set. -/
def popcountByte (n : ℕ) : ℕ := ((List.range 8).filter (fun i => n.testBit i)).length

/-- Embedding of `swap_endian32`: the four byte fields of the 32-bit value
are masked out and recombined in the opposite order, exactly as in the
source expression. -/
def swap_endian32 (n : ℕ) : ℕ :=
  ((n &&& 0xFF) <<< 24) + ((n &&& 0xFF00) <<< 8) + ((n &&& 0xFF0000) >>> 8) +
    ((n &&& 0xFF000000) >>> 24)

/-- Embedding of `swap_endian64`: the eight byte fields of the 64-bit value
are masked out and recombined in the opposite order, exactly as in the
source expression. -/
def swap_endian64 (n : ℕ) : ℕ :=
  ((n &&& 0xFF) <<< 56) + ((n &&& 0xFF00) <<< 40) + ((n &&& 0xFF0000) <<< 24) +
    ((n &&& 0xFF000000) <<< 8) + ((n &&& 0xFF00000000) >>> 8) +
    ((n &&& 0xFF0000000000) >>> 24) + ((n &&& 0xFF000000000000) >>> 40) +
    ((n &&& 0xFF00000000000000) >>> 56)

/-- Embedding of one iteration of the loop body of `append_iso14443a_crc`:
`bt` and the updated `wCrc` are computed exactly as in the source, with an
explicit `&&& 0xFF` wherever a value is stored into the byte variable. -/
def crc_byte_step (wCrc b : ℕ) : ℕ :=
  let bt := (b ^^^ (wCrc &&& 0xFF)) &&& 0xFF
  let bt2 := (bt ^^^ (bt <<< 4)) &&& 0xFF
  ((wCrc >>> 8) ^^^ (bt2 <<< 8)) ^^^ (bt2 <<< 3) ^^^ (bt2 >>> 4)

/-- Number of executions of the body of `do { ... } while (--uiLen)` with a
32-bit unsigned counter: the body always runs at least once, and a counter
of zero wraps around and forces `2^32` iterations. -/
def doWhileIters (uiLen : ℕ) : ℕ := if uiLen = 0 then 2 ^ 32 else uiLen

/-- Run `n` iterations of the CRC loop body, consuming one buffer byte per
iteration; `none` models the loop reading past the end of the buffer. -/
def crc_consume : ℕ → ℕ → List ℕ → Option ℕ
  | 0, wCrc, _ => some wCrc
  | _ + 1, _, [] => none
  | n + 1, wCrc, b :: rest => crc_consume n (crc_byte_step wCrc b) rest

/-- Embedding of `append_iso14443a_crc` on a buffer holding exactly the
`uiLen` protected bytes: run the do-while loop, then append the low and
high CRC bytes; `none` models the out-of-range reads forced by a zero
length. -/
def append_iso14443a_crc (pbtData : List ℕ) : Option (List ℕ) :=
  match crc_consume (doWhileIters pbtData.length) 0x6363 pbtData with
  | some wCrc => some (pbtData ++ [wCrc &&& 0xFF, (wCrc >>> 8) &&& 0xFF])
  | none => none

/-- Total CRC register value after folding the loop body over the buffer. -/
def crc_fold (pbtData : List ℕ) : ℕ := pbtData.foldl crc_byte_step 0x6363

/-- The combination of the three shifted copies of the preprocessed byte in
the source's CRC update, isolated from the surrounding exclusive-ors. -/
def codeCombine (lo : ℕ) : ℕ :=
  let u := (lo ^^^ (lo <<< 4)) &&& 0xFF
  ((u <<< 8) ^^^ (u <<< 3)) ^^^ (u >>> 4)

/-- One shift round of the reference CRC, written from the spec's words: a
16-bit CRC with reflected polynomial `0x8408`; when the low bit is set the
register is shifted right and the polynomial folded in. -/
def crc_step_bit (c : ℕ) : ℕ := if c.testBit 0 then (c >>> 1) ^^^ 0x8408 else c >>> 1

/-- Iterate `crc_step_bit` a given number of rounds. -/
def crc_step_bits : ℕ → ℕ → ℕ
  | 0, c => c
  | k + 1, c => crc_step_bits k (crc_step_bit c)

/-- Reference CRC-A written from the spec's words, for comparison with the
source's loop: seed `0x6363`, then for each byte fold it into the low
register bits and run eight reflected-`0x8408` shift rounds. -/
def crcA_spec (data : List ℕ) : ℕ :=
  data.foldl (fun c b => crc_step_bits 8 (c ^^^ b)) 0x6363

/-- Model of one rendered byte of `print_hex_par`: the hex byte and the
marker that follows it, `"! "` when the table parity of the byte differs
from the supplied parity bit and `"  "` otherwise. -/
def print_hex_par_cell (b p : ℕ) : ℕ × String :=
  (b, if OddParity.getD b 0 ≠ p then "! " else "  ")

/-- Model of the whole-byte portion of `print_hex_par`: one annotated cell
per whole byte of the `uiBits`-bit buffer. -/
def print_hex_par_cells (pbtData : List ℕ) (uiBits : ℕ) (pbtDataPar : List ℕ) :
    List (ℕ × String) :=
  (List.range (uiBits / 8)).map (fun i => print_hex_par_cell (pbtData.getD i 0) (pbtDataPar.getD i 0))

end Bitutils

namespace EmulateUid

open Bitutils

/-- The mutable global state of the emulation loop: the receive staging
buffer and its bit count, the three identity reply buffers, and the
transmit pointer / bit count set by the dispatch switch. -/
structure EmuState where
  abtRecv : List ℕ
  szRecvBits : ℕ
  abtAtqa : List ℕ
  abtUidBcc : List ℕ
  abtSak : List ℕ
  pbtTx : List ℕ
  szTxBits : ℕ
deriving Repr, DecidableEq

/-- The initial global state of the program: ATQA `04 00`, UID+BCC
`DE AD BE AF 62`, SAK frame `08 b6 dd`, nothing received or staged. -/
def initEmuState : EmuState :=
  { abtRecv := [], szRecvBits := 0,
    abtAtqa := [0x04, 0x00],
    abtUidBcc := [0xDE, 0xAD, 0xBE, 0xAF, 0x62],
    abtSak := [0x08, 0xb6, 0xdd],
    pbtTx := [], szTxBits := 0 }

/-- Embedding of the command-line UID configuration loop: the four parsed
bytes are stored and the check byte accumulates their exclusive-or,
starting from zero. -/
def configUidBcc (b0 b1 b2 b3 : ℕ) : List ℕ :=
  [b0, b1, b2, b3, (((0 ^^^ b0) ^^^ b1) ^^^ b2) ^^^ b3]

/-- The global state after a UID was supplied on the command line. -/
def configuredEmuState (b0 b1 b2 b3 : ℕ) : EmuState :=
  { initEmuState with abtUidBcc := configUidBcc b0 b1 b2 b3 }

/-- Embedding of one iteration of the main loop after a frame arrived: the
receive buffer and its bit count are stored, then the switch on
`szRecvBits` selects the transmit buffer and bit count; an unrecognized
length only clears `szTxBits`. -/
def emu_step (s : EmuState) (recv : List ℕ) (bits : ℕ) : EmuState :=
  let s1 := { s with abtRecv := recv, szRecvBits := bits }
  if bits = 7 then { s1 with pbtTx := s1.abtAtqa, szTxBits := 16 }
  else if bits = 16 then { s1 with pbtTx := s1.abtUidBcc, szTxBits := 40 }
  else if bits = 72 then { s1 with pbtTx := s1.abtSak, szTxBits := 24 }
  else { s1 with szTxBits := 0 }

/-- The observable reply of one loop iteration: the frame handed to
`nfc_target_send_bits` when `szTxBits` is nonzero, and no reply otherwise. -/
def handle_frame (s : EmuState) (recv : List ℕ) (bits : ℕ) : Option (List ℕ × ℕ) :=
  let s2 := emu_step s recv bits
  if s2.szTxBits ≠ 0 then some (s2.pbtTx, s2.szTxBits) else none

end EmulateUid

/-! Helper lemmas shared by several claims. -/

namespace Bitutils

/-- Running the CRC loop with a fuel equal to the buffer length consumes the
whole buffer and computes the left fold of the loop body. -/
theorem crc_consume_length_eq (data : List ℕ) :
    ∀ w, crc_consume data.length w data = some (data.foldl crc_byte_step w) := by
  induction data with
  | nil => intro w; rfl
  | cons b rest ih =>
    intro w
    simpa [crc_consume, List.foldl] using ih (crc_byte_step w b)

end Bitutils

namespace EmulateUid

open Bitutils

/-- C10: the CRC append routine terminates and processes exactly its input
bytes whenever the length is at least one (the do-while body always runs at
least once), and on a zero-length buffer the wrapped counter drives the
loop past the end of the input. -/
theorem append_crc_total_iff_len_pos :
    (∀ data : List ℕ, 1 ≤ data.length →
        append_iso14443a_crc data =
          some (data ++ [crc_fold data &&& 0xFF, (crc_fold data >>> 8) &&& 0xFF]))
    ∧ append_iso14443a_crc [] = none := by
  constructor
  · intro data h
    have hne : data.length ≠ 0 := by omega
    simp [append_iso14443a_crc, doWhileIters, hne, crc_consume_length_eq, crc_fold]
  · have h32 : (2 : ℕ) ^ 32 = 4294967295 + 1 := by norm_num
    simp [append_iso14443a_crc, doWhileIters, h32, crc_consume]

/-- Closed instance of `append_crc_total_iff_len_pos` at the one-byte SAK
buffer. -/
theorem append_crc_total_iff_len_pos_witness :
    append_iso14443a_crc [0x08] =
      some ([0x08] ++ [crc_fold [0x08] &&& 0xFF, (crc_fold [0x08] >>> 8) &&& 0xFF]) :=
  append_crc_total_iff_len_pos.1 [0x08] (by decide)

/-- C1: the reply of one loop iteration depends only on the inbound bit
length, never on the received bytes; lengths 7, 16 and 72 select the ATQA,
UID+BCC and SAK buffers at 16, 40 and 24 bits, every other length produces
no reply, and the three reply buffers of the initial state are 2, 5 and 3
bytes long. -/
theorem handle_frame_length_keyed (s : EmuState) (recv recv' : List ℕ) (bits : ℕ) :
    handle_frame s recv bits = handle_frame s recv' bits
    ∧ handle_frame s recv 7 = some (s.abtAtqa, 16)
    ∧ handle_frame s recv 16 = some (s.abtUidBcc, 40)
    ∧ handle_frame s recv 72 = some (s.abtSak, 24)
    ∧ (bits ≠ 7 → bits ≠ 16 → bits ≠ 72 → handle_frame s recv bits = none)
    ∧ initEmuState.abtAtqa.length = 2
    ∧ initEmuState.abtUidBcc.length = 5
    ∧ initEmuState.abtSak.length = 3 := by
  refine ⟨?_, by simp [handle_frame, emu_step], by simp [handle_frame, emu_step],
    by simp [handle_frame, emu_step], ?_, rfl, rfl, rfl⟩
  · simp only [handle_frame, emu_step]
    split_ifs <;> simp
  · intro h7 h16 h72
    simp [handle_frame, emu_step, h7, h16, h72]

/-- Closed instance of `handle_frame_length_keyed`: an 8-bit frame is
ignored. -/
theorem handle_frame_length_keyed_witness :
    handle_frame initEmuState [0x55] 8 = none :=
  (handle_frame_length_keyed initEmuState [0x55] [0x99] 8).2.2.2.2.1
    (by decide) (by decide) (by decide)

/-- C3: for every configured UID the 16-bit-frame reply is the four UID
bytes followed by their exclusive-or, and for the default UID
`DE AD BE AF` the reply is `DE AD BE AF 62` at 40 bits. -/
theorem uid_bcc_reply (b0 b1 b2 b3 : ℕ) (recv : List ℕ) :
    handle_frame (configuredEmuState b0 b1 b2 b3) recv 16 =
      some ([b0, b1, b2, b3, ((b0 ^^^ b1) ^^^ b2) ^^^ b3], 40)
    ∧ handle_frame initEmuState recv 16 = some ([0xDE, 0xAD, 0xBE, 0xAF, 0x62], 40)
    ∧ ((0xDE ^^^ 0xAD) ^^^ 0xBE) ^^^ 0xAF = 0x62
    ∧ configUidBcc 0xDE 0xAD 0xBE 0xAF = [0xDE, 0xAD, 0xBE, 0xAF, 0x62] := by
  refine ⟨?_, by simp [handle_frame, emu_step, initEmuState], by decide, by decide⟩
  simp [handle_frame, emu_step, configuredEmuState, configUidBcc, initEmuState]

/-- C4: the default SAK reply buffer is the SAK byte `0x08` followed by
exactly the CRC-A of that byte, low byte first, and it is sent at 24 bits
in reply to a 72-bit frame. -/
theorem sak_reply_is_sak_with_crc (recv : List ℕ) :
    initEmuState.abtSak = [0x08, 0xb6, 0xdd]
    ∧ append_iso14443a_crc [0x08] = some [0x08, 0xb6, 0xdd]
    ∧ [0xb6, 0xdd] = [crcA_spec [0x08] &&& 0xFF, (crcA_spec [0x08] >>> 8) &&& 0xFF]
    ∧ handle_frame initEmuState recv 72 = some ([0x08, 0xb6, 0xdd], 24) := by
  refine ⟨rfl, by decide, by decide, ?_⟩
  simp [handle_frame, emu_step, initEmuState]

/-- C9: one loop iteration never modifies the identity buffers — ATQA,
UID+BCC and SAK are unchanged by the dispatch — and the state change has no
effect on the reply to any later frame, so the returned reply is the only
observable effect. -/
theorem emu_step_preserves_identity (s : EmuState) (recv : List ℕ) (bits : ℕ) :
    (emu_step s recv bits).abtAtqa = s.abtAtqa
    ∧ (emu_step s recv bits).abtUidBcc = s.abtUidBcc
    ∧ (emu_step s recv bits).abtSak = s.abtSak
    ∧ (∀ recv2 bits2, handle_frame (emu_step s recv bits) recv2 bits2 =
        handle_frame s recv2 bits2) := by
  refine ⟨?_, ?_, ?_, ?_⟩
  · simp only [emu_step]; split_ifs <;> rfl
  · simp only [emu_step]; split_ifs <;> rfl
  · simp only [emu_step]; split_ifs <;> rfl
  · intro recv2 bits2
    simp only [handle_frame, emu_step]
    split_ifs <;> simp_all

end EmulateUid

namespace Bitutils

set_option maxRecDepth 4096 in
/-- C5: for every byte value the table-driven parity bit is 1 exactly when
the byte has an even number of set bits, so the set bits plus the parity
bit always total an odd count. -/
theorem oddparity_iff_even_popcount (b : ℕ) (hb : b < 256) :
    (oddparity b = 1 ↔ popcountByte b % 2 = 0)
    ∧ (oddparity b = 0 ↔ popcountByte b % 2 = 1)
    ∧ (popcountByte b + oddparity b) % 2 = 1 := by
  revert hb
  revert b
  decide

/-- Closed instance of `oddparity_iff_even_popcount` at byte `0xDE`. -/
theorem oddparity_iff_even_popcount_witness :
    (oddparity 0xDE = 1 ↔ popcountByte 0xDE % 2 = 0)
    ∧ (oddparity 0xDE = 0 ↔ popcountByte 0xDE % 2 = 1)
    ∧ (popcountByte 0xDE + oddparity 0xDE) % 2 = 1 :=
  oddparity_iff_even_popcount 0xDE (by decide)

set_option maxRecDepth 4096 in
/-- C6: mirroring a byte through the table twice gives the byte back, and
mirroring a whole buffer twice gives the buffer back. -/
theorem mirror_involutive :
    (∀ b : ℕ, b < 256 → mirror (mirror b) = b)
    ∧ ∀ l : List ℕ, (∀ b ∈ l, b < 256) → mirror_bytes (mirror_bytes l) = l := by
  have h1 : ∀ b : ℕ, b < 256 → mirror (mirror b) = b := by decide
  refine ⟨h1, ?_⟩
  intro l
  induction l with
  | nil => intro _; rfl
  | cons b rest ih =>
    intro h
    have hb : b < 256 := h b (List.mem_cons_self b rest)
    have hrest : ∀ x ∈ rest, x < 256 := fun x hx => h x (List.mem_cons_of_mem b hx)
    calc mirror_bytes (mirror_bytes (b :: rest))
        = mirror (mirror b) :: mirror_bytes (mirror_bytes rest) := rfl
      _ = b :: rest := by rw [h1 b hb, ih hrest]

/-- Closed instance of `mirror_involutive` on a byte and on a buffer. -/
theorem mirror_involutive_witness :
    mirror (mirror 0xb7) = 0xb7
    ∧ mirror_bytes (mirror_bytes [0xDE, 0xAD, 0xBE, 0xAF]) = [0xDE, 0xAD, 0xBE, 0xAF] :=
  ⟨mirror_involutive.1 0xb7 (by decide),
   mirror_involutive.2 [0xDE, 0xAD, 0xBE, 0xAF] (by decide)⟩

/-- C8: in the annotated parity dump, a whole byte carries the `"! "`
marker exactly when its supplied parity bit differs from the table parity
of the byte, and the `"  "` marker otherwise. -/
theorem print_hex_par_marks_mismatch (data par : List ℕ) (uiBits i : ℕ)
    (h : i < uiBits / 8) :
    (print_hex_par_cells data uiBits par).getD i (0, "") =
      (data.getD i 0,
        if oddparity (data.getD i 0) ≠ par.getD i 0 then "! " else "  ")
    ∧ (((print_hex_par_cells data uiBits par).getD i (0, "")).2 = "! " ↔
        oddparity (data.getD i 0) ≠ par.getD i 0) := by
  have hcell : (print_hex_par_cells data uiBits par).getD i (0, "") =
      print_hex_par_cell (data.getD i 0) (par.getD i 0) := by
    simp [print_hex_par_cells, List.getD_eq_getElem?_getD, List.getElem?_map,
      List.getElem?_range, h]
  constructor
  · rw [hcell]; rfl
  · rw [hcell]
    unfold print_hex_par_cell oddparity
    by_cases hm : OddParity.getD (data.getD i 0) 0 ≠ par.getD i 0
    · simp [hm]
    · simp [hm]

/-- Closed instance of `print_hex_par_marks_mismatch`: the second byte of a
two-byte dump with a corrupted second parity bit is flagged. -/
theorem print_hex_par_marks_mismatch_witness :
    (print_hex_par_cells [0xde, 0xad] 16 [0, 1]).getD 1 (0, "") =
      ((0xad : ℕ),
        if oddparity ((0xad : ℕ)) ≠ (1 : ℕ) then "! " else "  ")
    ∧ (((print_hex_par_cells [0xde, 0xad] 16 [0, 1]).getD 1 (0, "")).2 = "! " ↔
        oddparity ((0xad : ℕ)) ≠ (1 : ℕ)) :=
  print_hex_par_marks_mismatch [0xde, 0xad] [0, 1] 16 1 (by decide)

end Bitutils

namespace Bitutils

/-- Masking with an eight-bit mask shifted up by `k` extracts the byte at
bit position `k`, kept in place. -/
theorem and_mask_byte (n k : ℕ) : n &&& ((2 ^ 8 - 1) <<< k) = ((n >>> k) % 2 ^ 8) <<< k := by
  apply Nat.eq_of_testBit_eq
  intro i
  simp only [Nat.testBit_and, Nat.testBit_shiftLeft, Nat.testBit_shiftRight,
    Nat.testBit_mod_two_pow, Nat.testBit_two_pow_sub_one]
  by_cases hk : k ≤ i
  · have hik : k + (i - k) = i := by omega
    simp [hk, hik, Bool.and_comm, Bool.and_left_comm]
  · simp [hk]

/-- Arithmetic form of `swap_endian32`: the four bytes of the argument in
reverse order. -/
theorem swap_endian32_eq (n : ℕ) :
    swap_endian32 n = (n / 2 ^ 24 % 256) + (n / 2 ^ 16 % 256) * 2 ^ 8 +
      (n / 2 ^ 8 % 256) * 2 ^ 16 + (n % 256) * 2 ^ 24 := by
  have h0 : (0xFF : ℕ) = (2 ^ 8 - 1) <<< 0 := by norm_num
  have h1 : (0xFF00 : ℕ) = (2 ^ 8 - 1) <<< 8 := by norm_num [Nat.shiftLeft_eq]
  have h2 : (0xFF0000 : ℕ) = (2 ^ 8 - 1) <<< 16 := by norm_num [Nat.shiftLeft_eq]
  have h3 : (0xFF000000 : ℕ) = (2 ^ 8 - 1) <<< 24 := by norm_num [Nat.shiftLeft_eq]
  unfold swap_endian32
  rw [h0, h1, h2, h3, and_mask_byte, and_mask_byte, and_mask_byte, and_mask_byte]
  simp only [Nat.shiftLeft_eq, Nat.shiftRight_eq_div_pow]
  norm_num
  omega

/-- The value of `swap_endian32` on a four-byte composition. -/
theorem swap_endian32_bytes (b0 b1 b2 b3 : ℕ) (h0 : b0 < 256) (h1 : b1 < 256)
    (h2 : b2 < 256) (h3 : b3 < 256) :
    swap_endian32 (b0 + b1 * 2 ^ 8 + b2 * 2 ^ 16 + b3 * 2 ^ 24) =
      b3 + b2 * 2 ^ 8 + b1 * 2 ^ 16 + b0 * 2 ^ 24 := by
  rw [swap_endian32_eq]
  norm_num
  omega

/-- Arithmetic form of `swap_endian64`: the eight bytes of the argument in
reverse order. -/
theorem swap_endian64_eq (n : ℕ) :
    swap_endian64 n = (n / 2 ^ 56 % 256) + (n / 2 ^ 48 % 256) * 2 ^ 8 +
      (n / 2 ^ 40 % 256) * 2 ^ 16 + (n / 2 ^ 32 % 256) * 2 ^ 24 +
      (n / 2 ^ 24 % 256) * 2 ^ 32 + (n / 2 ^ 16 % 256) * 2 ^ 40 +
      (n / 2 ^ 8 % 256) * 2 ^ 48 + (n % 256) * 2 ^ 56 := by
  have h0 : (0xFF : ℕ) = (2 ^ 8 - 1) <<< 0 := by norm_num
  have h1 : (0xFF00 : ℕ) = (2 ^ 8 - 1) <<< 8 := by norm_num [Nat.shiftLeft_eq]
  have h2 : (0xFF0000 : ℕ) = (2 ^ 8 - 1) <<< 16 := by norm_num [Nat.shiftLeft_eq]
  have h3 : (0xFF000000 : ℕ) = (2 ^ 8 - 1) <<< 24 := by norm_num [Nat.shiftLeft_eq]
  have h4 : (0xFF00000000 : ℕ) = (2 ^ 8 - 1) <<< 32 := by norm_num [Nat.shiftLeft_eq]
  have h5 : (0xFF0000000000 : ℕ) = (2 ^ 8 - 1) <<< 40 := by norm_num [Nat.shiftLeft_eq]
  have h6 : (0xFF000000000000 : ℕ) = (2 ^ 8 - 1) <<< 48 := by norm_num [Nat.shiftLeft_eq]
  have h7 : (0xFF00000000000000 : ℕ) = (2 ^ 8 - 1) <<< 56 := by norm_num [Nat.shiftLeft_eq]
  unfold swap_endian64
  rw [h0, h1, h2, h3, h4, h5, h6, h7, and_mask_byte, and_mask_byte, and_mask_byte,
    and_mask_byte, and_mask_byte, and_mask_byte, and_mask_byte, and_mask_byte]
  simp only [Nat.shiftLeft_eq, Nat.shiftRight_eq_div_pow]
  norm_num
  omega

/-- The value of `swap_endian64` on an eight-byte composition. -/
theorem swap_endian64_bytes (b0 b1 b2 b3 b4 b5 b6 b7 : ℕ) (h0 : b0 < 256) (h1 : b1 < 256)
    (h2 : b2 < 256) (h3 : b3 < 256) (h4 : b4 < 256) (h5 : b5 < 256)
    (h6 : b6 < 256) (h7 : b7 < 256) :
    swap_endian64 (b0 + b1 * 2 ^ 8 + b2 * 2 ^ 16 + b3 * 2 ^ 24 + b4 * 2 ^ 32 + b5 * 2 ^ 40 +
        b6 * 2 ^ 48 + b7 * 2 ^ 56) =
      b7 + b6 * 2 ^ 8 + b5 * 2 ^ 16 + b4 * 2 ^ 24 + b3 * 2 ^ 32 + b2 * 2 ^ 40 +
        b1 * 2 ^ 48 + b0 * 2 ^ 56 := by
  have e0 : (b0 + b1 * 2 ^ 8 + b2 * 2 ^ 16 + b3 * 2 ^ 24 + b4 * 2 ^ 32 + b5 * 2 ^ 40 +
      b6 * 2 ^ 48 + b7 * 2 ^ 56) % 256 = b0 := by omega
  have e1 : (b0 + b1 * 2 ^ 8 + b2 * 2 ^ 16 + b3 * 2 ^ 24 + b4 * 2 ^ 32 + b5 * 2 ^ 40 +
      b6 * 2 ^ 48 + b7 * 2 ^ 56) / 2 ^ 8 % 256 = b1 := by omega
  have e2 : (b0 + b1 * 2 ^ 8 + b2 * 2 ^ 16 + b3 * 2 ^ 24 + b4 * 2 ^ 32 + b5 * 2 ^ 40 +
      b6 * 2 ^ 48 + b7 * 2 ^ 56) / 2 ^ 16 % 256 = b2 := by omega
  have e3 : (b0 + b1 * 2 ^ 8 + b2 * 2 ^ 16 + b3 * 2 ^ 24 + b4 * 2 ^ 32 + b5 * 2 ^ 40 +
      b6 * 2 ^ 48 + b7 * 2 ^ 56) / 2 ^ 24 % 256 = b3 := by omega
  have e4 : (b0 + b1 * 2 ^ 8 + b2 * 2 ^ 16 + b3 * 2 ^ 24 + b4 * 2 ^ 32 + b5 * 2 ^ 40 +
      b6 * 2 ^ 48 + b7 * 2 ^ 56) / 2 ^ 32 % 256 = b4 := by omega
  have e5 : (b0 + b1 * 2 ^ 8 + b2 * 2 ^ 16 + b3 * 2 ^ 24 + b4 * 2 ^ 32 + b5 * 2 ^ 40 +
      b6 * 2 ^ 48 + b7 * 2 ^ 56) / 2 ^ 40 % 256 = b5 := by omega
  have e6 : (b0 + b1 * 2 ^ 8 + b2 * 2 ^ 16 + b3 * 2 ^ 24 + b4 * 2 ^ 32 + b5 * 2 ^ 40 +
      b6 * 2 ^ 48 + b7 * 2 ^ 56) / 2 ^ 48 % 256 = b6 := by omega
  have e7 : (b0 + b1 * 2 ^ 8 + b2 * 2 ^ 16 + b3 * 2 ^ 24 + b4 * 2 ^ 32 + b5 * 2 ^ 40 +
      b6 * 2 ^ 48 + b7 * 2 ^ 56) / 2 ^ 56 % 256 = b7 := by omega
  rw [swap_endian64_eq, e0, e1, e2, e3, e4, e5, e6, e7]

/-- C7: byte-order reversal is an involution, on 32-bit values and on
64-bit values. -/
theorem swap_endian_involutive :
    (∀ n : ℕ, n < 2 ^ 32 → swap_endian32 (swap_endian32 n) = n)
    ∧ (∀ n : ℕ, n < 2 ^ 64 → swap_endian64 (swap_endian64 n) = n) := by
  constructor
  · intro n h
    have hn : n = n % 256 + (n / 2 ^ 8 % 256) * 2 ^ 8 + (n / 2 ^ 16 % 256) * 2 ^ 16 +
        (n / 2 ^ 24 % 256) * 2 ^ 24 := by
      norm_num
      omega
    rw [hn, swap_endian32_bytes _ _ _ _ (by omega) (by omega) (by omega) (by omega),
      swap_endian32_bytes _ _ _ _ (by omega) (by omega) (by omega) (by omega)]
  · intro n h
    have hn : n = n % 256 + (n / 2 ^ 8 % 256) * 2 ^ 8 + (n / 2 ^ 16 % 256) * 2 ^ 16 +
        (n / 2 ^ 24 % 256) * 2 ^ 24 + (n / 2 ^ 32 % 256) * 2 ^ 32 +
        (n / 2 ^ 40 % 256) * 2 ^ 40 + (n / 2 ^ 48 % 256) * 2 ^ 48 +
        (n / 2 ^ 56 % 256) * 2 ^ 56 := by
      norm_num
      omega
    rw [hn,
      swap_endian64_bytes _ _ _ _ _ _ _ _ (by omega) (by omega) (by omega) (by omega)
        (by omega) (by omega) (by omega) (by omega),
      swap_endian64_bytes _ _ _ _ _ _ _ _ (by omega) (by omega) (by omega) (by omega)
        (by omega) (by omega) (by omega) (by omega)]

/-- Closed instance of `swap_endian_involutive` at two sample values. -/
theorem swap_endian_involutive_witness :
    swap_endian32 (swap_endian32 0x12345678) = 0x12345678
    ∧ swap_endian64 (swap_endian64 0x123456789abcdef0) = 0x123456789abcdef0 :=
  ⟨swap_endian_involutive.1 0x12345678 (by norm_num),
   swap_endian_involutive.2 0x123456789abcdef0 (by norm_num)⟩

end Bitutils

namespace Bitutils

/-- Right shift by one distributes over exclusive-or. -/
theorem xor_shiftRight_one (x y : ℕ) : (x ^^^ y) >>> 1 = (x >>> 1) ^^^ (y >>> 1) := by
  simpa [Nat.shiftRight_succ, Nat.shiftRight_zero] using Nat.xor_div_two

/-- Shifting left by a successor and then right by one shifts by the
predecessor. -/
theorem shiftLeft_succ_shiftRight_one (h k : ℕ) : (h <<< (k + 1)) >>> 1 = h <<< k := by
  rw [Nat.shiftLeft_succ, Nat.shiftRight_succ, Nat.shiftRight_zero,
    Nat.mul_div_cancel_left _ (by norm_num : (0 : ℕ) < 2)]

/-- A value shifted left by a successor has an even low bit. -/
theorem testBit_zero_shiftLeft_succ (h k : ℕ) : (h <<< (k + 1)).testBit 0 = false := by
  simp [Nat.testBit_shiftLeft]

/-- One CRC shift round ignores bits strictly above the round position:
they pass through by one shift. -/
theorem crc_step_bit_shift (h c k : ℕ) :
    crc_step_bit ((h <<< (k + 1)) ^^^ c) = (h <<< k) ^^^ crc_step_bit c := by
  unfold crc_step_bit
  rw [Nat.testBit_xor, testBit_zero_shiftLeft_succ, Bool.false_xor]
  cases hcb : c.testBit 0
  · simp only [hcb, Bool.false_eq_true, if_false]
    rw [xor_shiftRight_one, shiftLeft_succ_shiftRight_one]
  · simp only [hcb, if_true]
    rw [xor_shiftRight_one, shiftLeft_succ_shiftRight_one, Nat.xor_assoc]

/-- Running `k` CRC shift rounds on a value with a disjoint high part moves
the high part down past the rounds untouched. -/
theorem crc_step_bits_shift (k : ℕ) : ∀ h c : ℕ,
    crc_step_bits k ((h <<< k) ^^^ c) = h ^^^ crc_step_bits k c := by
  induction k with
  | zero => intro h c; simp [crc_step_bits]
  | succ k ih =>
    intro h c
    show crc_step_bits k (crc_step_bit ((h <<< (k + 1)) ^^^ c)) = h ^^^ crc_step_bits (k + 1) c
    rw [crc_step_bit_shift]
    exact ih h (crc_step_bit c)

/-- A value splits into its shifted-down high part and its low byte. -/
theorem split_lo_hi (w : ℕ) : ((w >>> 8) <<< 8) ^^^ (w &&& 0xFF) = w := by
  have hff : (0xFF : ℕ) = 2 ^ 8 - 1 := by norm_num
  apply Nat.eq_of_testBit_eq
  intro i
  rw [hff]
  simp only [Nat.testBit_xor, Nat.testBit_shiftLeft, Nat.testBit_shiftRight,
    Nat.testBit_and, Nat.testBit_two_pow_sub_one]
  by_cases h8 : 8 ≤ i
  · have hik : 8 + (i - 8) = i := by omega
    simp [h8, hik, (show ¬ i < 8 by omega)]
  · simp [h8, ge_iff_le, (show i < 8 by omega)]

/-- Eight reference rounds on a byte folded into the register equal the
shifted-down register exclusive-or eight rounds on the low byte alone. -/
theorem byte_decomp (w b : ℕ) :
    crc_step_bits 8 (w ^^^ b) = (w >>> 8) ^^^ crc_step_bits 8 ((w &&& 0xFF) ^^^ b) := by
  conv_lhs => rw [← split_lo_hi w]
  rw [Nat.xor_assoc]
  exact crc_step_bits_shift 8 (w >>> 8) ((w &&& 0xFF) ^^^ b)

set_option maxRecDepth 8192 in
/-- On every byte value, eight reference shift rounds agree with the
source's closed-form combination of the preprocessed byte. -/
theorem step8_table : ∀ lo : ℕ, lo < 256 → crc_step_bits 8 lo = codeCombine lo := by
  decide

/-- One iteration of the source's CRC loop body equals folding the byte
into the register and running eight reference shift rounds. -/
theorem byte_step_spec (w b : ℕ) (hb : b < 256) :
    crc_byte_step w b = crc_step_bits 8 (w ^^^ b) := by
  have hff : (0xFF : ℕ) = 2 ^ 8 - 1 := by norm_num
  have hwb : w &&& 0xFF < 2 ^ 8 := by
    rw [hff]
    exact Nat.and_lt_two_pow w (by norm_num)
  have hb8 : b < 2 ^ 8 := by omega
  have hlo8 : b ^^^ (w &&& 0xFF) < 2 ^ 8 := Nat.xor_lt_two_pow hb8 hwb
  have hlo : b ^^^ (w &&& 0xFF) < 256 := by omega
  have hmask : (b ^^^ (w &&& 0xFF)) &&& 0xFF = b ^^^ (w &&& 0xFF) := by
    rw [hff]
    exact Nat.and_pow_two_sub_one_of_lt_two_pow hlo8
  rw [byte_decomp]
  have hcomm : (w &&& 0xFF) ^^^ b = b ^^^ (w &&& 0xFF) := Nat.xor_comm _ _
  rw [hcomm, step8_table _ hlo]
  show crc_byte_step w b = (w >>> 8) ^^^ codeCombine (b ^^^ (w &&& 0xFF))
  unfold crc_byte_step codeCombine
  simp only [hmask, Nat.xor_assoc]

/-- Over byte-valued buffers, the source's CRC fold and the reference fold
agree from every starting register. -/
theorem fold_spec : ∀ (data : List ℕ), (∀ b ∈ data, b < 256) → ∀ w : ℕ,
    data.foldl crc_byte_step w = data.foldl (fun c b => crc_step_bits 8 (c ^^^ b)) w := by
  intro data
  induction data with
  | nil => intro _ w; rfl
  | cons b rest ih =>
    intro h w
    have hb : b < 256 := h b (List.mem_cons_self b rest)
    have hrest : ∀ x ∈ rest, x < 256 := fun x hx => h x (List.mem_cons_of_mem b hx)
    simp only [List.foldl]
    rw [byte_step_spec w b hb]
    exact ih hrest (crc_step_bits 8 (w ^^^ b))

/-- One reference shift round keeps the register inside sixteen bits. -/
theorem crc_step_bit_lt (c : ℕ) (h : c < 2 ^ 16) : crc_step_bit c < 2 ^ 16 := by
  unfold crc_step_bit
  have h1 : c >>> 1 < 2 ^ 16 := by
    rw [Nat.shiftRight_succ, Nat.shiftRight_zero]
    omega
  by_cases hc : c.testBit 0
  · simp only [hc, if_true]
    exact Nat.xor_lt_two_pow h1 (by norm_num)
  · simp only [hc, if_false]
    exact h1

/-- Any number of reference shift rounds keeps the register inside sixteen
bits. -/
theorem crc_step_bits_lt (k : ℕ) : ∀ c : ℕ, c < 2 ^ 16 → crc_step_bits k c < 2 ^ 16 := by
  induction k with
  | zero => intro c h; exact h
  | succ k ih => intro c h; exact ih (crc_step_bit c) (crc_step_bit_lt c h)

/-- The reference CRC of a byte-valued buffer is a sixteen-bit value. -/
theorem crcA_spec_lt (data : List ℕ) (h : ∀ b ∈ data, b < 256) :
    crcA_spec data < 2 ^ 16 := by
  have general : ∀ (l : List ℕ), (∀ b ∈ l, b < 256) → ∀ w : ℕ, w < 2 ^ 16 →
      l.foldl (fun c b => crc_step_bits 8 (c ^^^ b)) w < 2 ^ 16 := by
    intro l
    induction l with
    | nil => intro _ w hw; exact hw
    | cons b rest ih =>
      intro hl w hw
      have hb : b < 2 ^ 16 := by have := hl b (List.mem_cons_self b rest); omega
      have hrest : ∀ x ∈ rest, x < 256 := fun x hx => hl x (List.mem_cons_of_mem b hx)
      exact ih hrest _ (crc_step_bits_lt 8 _ (Nat.xor_lt_two_pow hw hb))
  exact general data h 0x6363 (by norm_num)

/-- C2: on every nonempty byte-valued buffer the source's CRC routine
computes exactly the spec's CRC-A — sixteen-bit register, reflected
polynomial `0x8408`, seed `0x6363` — and appends its two bytes low byte
first. -/
theorem append_crc_is_crcA_spec (data : List ℕ) (hne : data ≠ [])
    (hbytes : ∀ b ∈ data, b < 256) :
    append_iso14443a_crc data =
      some (data ++ [crcA_spec data &&& 0xFF, (crcA_spec data >>> 8) &&& 0xFF])
    ∧ crcA_spec data < 2 ^ 16 := by
  have hlen : data.length ≠ 0 := by
    cases data with
    | nil => exact absurd rfl hne
    | cons b rest => simp
  have key : data.foldl crc_byte_step 0x6363 = crcA_spec data :=
    fold_spec data hbytes 0x6363
  constructor
  · simp only [append_iso14443a_crc, doWhileIters, hlen, if_false,
      crc_consume_length_eq, key]
  · exact crcA_spec_lt data hbytes

/-- Closed instance of `append_crc_is_crcA_spec` on the default UID
bytes. -/
theorem append_crc_is_crcA_spec_witness :
    append_iso14443a_crc [0xDE, 0xAD, 0xBE, 0xAF] =
      some ([0xDE, 0xAD, 0xBE, 0xAF] ++
        [crcA_spec [0xDE, 0xAD, 0xBE, 0xAF] &&& 0xFF,
         (crcA_spec [0xDE, 0xAD, 0xBE, 0xAF] >>> 8) &&& 0xFF])
    ∧ crcA_spec [0xDE, 0xAD, 0xBE, 0xAF] < 2 ^ 16 :=
  append_crc_is_crcA_spec [0xDE, 0xAD, 0xBE, 0xAF] (by decide) (by decide)

end Bitutils
